import Mathlib

/-!
Verification of the schedule-management repository's Schedule Grid Compositor
and Table Layout Engine against its natural-language specification.

The definitions below are a shallow embedding of the Python sources
`src/csv_converter.py`, `src/models.py` and `src/word_generator.py`.
Pure functions become Lean functions; Python dictionaries become functions
into `Option`; code that can raise becomes `Except`-valued.  Each definition's
doc comment names the source function it embeds.
-/

namespace Sched

/-- The five symbolic weekdays (`models.DayOfWeek`, and the value set of
`CSVConverter.day_mapping`). -/
inductive Day where
  | sunday | monday | tuesday | wednesday | thursday
deriving DecidableEq, Repr

/-- The four daily time slots (the value set of `CSVConverter.slot_mapping`,
keys of `models.DaySchedule`). -/
inductive Slot where
  | first | second | third | fourth
deriving DecidableEq, Repr

/-- The fields of `models.CSVRow` that the embedded pipeline functions read.
Fields of the pydantic model that no embedded function touches
(`is_valid`, `day_slot`, `time`, `day_order`, `sp_code`, `active_tutor`,
`confirmed_by_tutor`, `teaching_hours`, `teaching_hours_printable`,
`main_tutor`, `helping_stuff`) are omitted.  `Optional[...]` fields become
`Option`. -/
structure CSVRow where
  day : String
  slot : Int
  isHalfSlot : Option Bool
  code : String
  speciality : Option String
  activityType : String
  location : String
  level : Option String
  courseName : Option String
  specialyLevel : Option String
  mainTutorWrite : Option String
  helpingStuffWrite : Option String
deriving DecidableEq, Repr

/-- `models.ScheduleEntry`.  The pydantic model declares `course_name`,
`instructor` and `assistant` as `Optional[str]`, but the only producer
(`CSVConverter.create_schedule_entry`) always supplies strings, so the
embedding uses `String`. -/
structure ScheduleEntry where
  courseName : String
  location : String
  instructor : String
  assistant : String
  isHalfSlot : Bool
deriving DecidableEq, Repr

/-- Decidable equality for `Except` results (used to state and evaluate
properties of fallible embedded functions). -/
instance {ε α : Type} [DecidableEq ε] [DecidableEq α] : DecidableEq (Except ε α) :=
  fun a b =>
    match a, b with
    | Except.ok x, Except.ok y =>
        if h : x = y then Decidable.isTrue (by rw [h])
        else Decidable.isFalse (fun hh => h (Except.ok.inj hh))
    | Except.error x, Except.error y =>
        if h : x = y then Decidable.isTrue (by rw [h])
        else Decidable.isFalse (fun hh => h (Except.error.inj hh))
    | Except.ok _, Except.error _ => Decidable.isFalse (fun hh => Except.noConfusion hh)
    | Except.error _, Except.ok _ => Decidable.isFalse (fun hh => Except.noConfusion hh)

/-- Python truthiness filter for an optional string: `None` and `""` are
falsy, everything else is truthy (used to embed `a or b` chains on
`Optional[str]` values). -/
def truthyStr (o : Option String) : Option String :=
  match o with
  | none => none
  | some s => if s = "" then none else some s

/-- Python `x or ""` on an `Optional[str]`. -/
def pyOrEmpty (o : Option String) : String :=
  (truthyStr o).getD ""

/-- Python `str(x)` applied to an `Optional[str]` inside an f-string:
`None` renders as the literal text `"None"`. -/
def pyStrOpt (o : Option String) : String :=
  match o with
  | none => "None"
  | some s => s

/-- The f-string `f"{csv_row.code} - {csv_row.course_name} - {csv_row.activity_type}"`
from `CSVConverter.create_schedule_entry` (csv_converter.py line 116). -/
def formatCourse (r : CSVRow) : String :=
  r.code ++ " - " ++ pyStrOpt r.courseName ++ " - " ++ r.activityType

/-- `CSVConverter.create_schedule_entry` (csv_converter.py lines 113-121).
The `or ""` on the formatted course string is embedded literally:
if the formatted string is empty the fallback `""` is used. -/
def createScheduleEntry (r : CSVRow) : ScheduleEntry :=
  { courseName := if formatCourse r = "" then "" else formatCourse r
    location := r.location
    instructor := pyOrEmpty r.mainTutorWrite
    assistant := pyOrEmpty r.helpingStuffWrite
    isHalfSlot := r.isHalfSlot.getD false }

/-- `CSVConverter.day_mapping` (csv_converter.py lines 11-17): Arabic day
names (hamza-free spellings) to day keys; unknown strings resolve to `none`
(Python `dict.get` returning `None`). -/
def dayMapping (s : String) : Option Day :=
  if s = "الاحد" then some .sunday
  else if s = "الاثنين" then some .monday
  else if s = "الثلاثاء" then some .tuesday
  else if s = "الاربعاء" then some .wednesday
  else if s = "الخميس" then some .thursday
  else none

/-- `CSVConverter.slot_mapping` (csv_converter.py lines 19-24). -/
def slotMapping (n : Int) : Option Slot :=
  if n = 1 then some .first
  else if n = 2 then some .second
  else if n = 3 then some .third
  else if n = 4 then some .fourth
  else none

/-- The (day, slot) grid address of a row, `some` exactly when both
`day_mapping.get` and `slot_mapping.get` are truthy
(`convert_to_weekly_schedule`, csv_converter.py lines 161-164). -/
def addr (r : CSVRow) : Option (Day × Slot) :=
  match dayMapping r.day, slotMapping r.slot with
  | some d, some s => some (d, s)
  | _, _ => none

/-- `models.WeeklySchedule`: a mapping from the 20 (day, slot) addresses to
at most one schedule entry. -/
def WeeklySchedule : Type := Day → Slot → Option ScheduleEntry

/-- `CSVConverter.create_empty_day_schedule` applied to all five days
(csv_converter.py lines 123-130 and 150-157). -/
def emptyWeekly : WeeklySchedule := fun _ _ => none

/-- Assignment `weekly_schedule[day_key][slot_key] = schedule_entry`
(csv_converter.py line 166). -/
def updateWS (ws : WeeklySchedule) (d : Day) (s : Slot) (e : ScheduleEntry) :
    WeeklySchedule :=
  fun d' s' => if d' = d ∧ s' = s then some e else ws d' s'

/-- `CSVConverter.convert_to_weekly_schedule` (csv_converter.py lines
148-168): fold the rows left-to-right over the empty grid; rows whose day or
slot does not resolve are skipped. -/
def convertToWeeklySchedule (rows : List CSVRow) : WeeklySchedule :=
  rows.foldl
    (fun ws r =>
      match addr r with
      | some (d, s) => updateWS ws d s (createScheduleEntry r)
      | none => ws)
    emptyWeekly

end Sched

/-- Helper: left fold with one row appended at the end. -/
theorem Sched.convert_append (rows : List Sched.CSVRow) (r : Sched.CSVRow) :
    Sched.convertToWeeklySchedule (rows ++ [r]) =
      (match Sched.addr r with
       | some (d, s) =>
           Sched.updateWS (Sched.convertToWeeklySchedule rows) d s
             (Sched.createScheduleEntry r)
       | none => Sched.convertToWeeklySchedule rows) := by
  unfold Sched.convertToWeeklySchedule
  rw [List.foldl_append]
  rfl

/-- Helper: last-write-wins characterization of the grid builder, proved by
reverse induction on the row list. -/
theorem Sched.convert_eq_getLast (rows : List Sched.CSVRow) (d : Sched.Day)
    (s : Sched.Slot) :
    Sched.convertToWeeklySchedule rows d s =
      ((rows.filter (fun r => Sched.addr r = some (d, s))).getLast?).map
        Sched.createScheduleEntry := by
  induction rows using List.reverseRecOn with
  | nil => rfl
  | append_singleton l r ih =>
      rw [Sched.convert_append, List.filter_append]
      by_cases h : Sched.addr r = some (d, s)
      · simp only [h]
        have hf : (List.filter (fun r => decide (Sched.addr r = some (d, s))) [r]) = [r] := by
          simp [List.filter, h]
        rw [hf, List.getLast?_append]
        · simp [Sched.updateWS]
      · have hf : (List.filter (fun r => decide (Sched.addr r = some (d, s))) [r]) = [] := by
          simp [List.filter, h]
        rw [hf, List.append_nil]
        cases ha : Sched.addr r with
        | none => simpa using ih
        | some p =>
            obtain ⟨d', s'⟩ := p
            simp only
            rw [Sched.updateWS]
            have hne : ¬(d = d' ∧ s = s') := by
              intro ⟨h1, h2⟩
              exact h (by rw [ha, h1, h2])
            simp only [if_neg hne]
            exact ih

namespace Sched

/-- Scenario row: course "X" at (Monday, slot 1), full slot. -/
def rowX : CSVRow :=
  { day := "الاثنين", slot := 1, isHalfSlot := some false, code := "C1"
    speciality := some "A", activityType := "lecture", location := "hall"
    level := some "100", courseName := some "X", specialyLevel := none
    mainTutorWrite := none, helpingStuffWrite := none }

/-- Scenario row: course "Y" at the same (Monday, slot 1) address. -/
def rowY : CSVRow :=
  { rowX with courseName := some "Y" }

/-- Concrete row whose course title field is missing (`course_name = None`). -/
def rowNoTitle : CSVRow :=
  { rowX with code := "EE101", courseName := none }

end Sched

/-- C2: building the day-slot grid applies last-write-wins.  For every row
sequence and every (day, slot) address, the final grid cell equals the entry
built from the last row of the sequence that resolves to that address (and
`none` when no row does); the builder is a total function, so no error or
diagnostic is ever produced.  In particular, a course-"X" row followed by a
course-"Y" row at the same (Monday, slot 1) address leaves the entry built
from the "Y" row in the cell. -/
theorem C2_grid_last_write_wins :
    (∀ (rows : List Sched.CSVRow) (d : Sched.Day) (s : Sched.Slot),
      Sched.convertToWeeklySchedule rows d s =
        ((rows.filter (fun r => Sched.addr r = some (d, s))).getLast?).map
          Sched.createScheduleEntry)
    ∧ Sched.convertToWeeklySchedule [Sched.rowX, Sched.rowY]
        Sched.Day.monday Sched.Slot.first =
        some (Sched.createScheduleEntry Sched.rowY)
    ∧ (Sched.createScheduleEntry Sched.rowY).courseName = "C1 - Y - lecture" := by
  refine ⟨Sched.convert_eq_getLast, ?_, ?_⟩ <;> decide

/-- C10: every schedule entry produced from a row has `course_name` equal to
the formatted string `"{code} - {course_name} - {activity_type}"`, and that
string is never empty (so the `or ""` fallback in
`create_schedule_entry` is unreachable); a row whose course title field is
missing yields the literal text "None" inside the cell, e.g.
"EE101 - None - lecture". -/
theorem C10_course_name_format :
    (∀ r : Sched.CSVRow,
      (Sched.createScheduleEntry r).courseName = Sched.formatCourse r ∧
      Sched.formatCourse r ≠ "")
    ∧ (Sched.createScheduleEntry Sched.rowNoTitle).courseName
        = "EE101 - None - lecture" := by
  constructor
  · intro r
    have hne : Sched.formatCourse r ≠ "" := by
      intro hemp
      have hlen := congrArg String.length hemp
      simp [Sched.formatCourse, String.length_append] at hlen
      exact absurd hlen.1.1.1.2 (by decide)
    exact ⟨by simp [Sched.createScheduleEntry, if_neg hne], hne⟩
  · decide

namespace Sched

/-- ASCII whitespace, for the stripping `float()` performs on its string
argument.  Exotic float syntax (exponents, `inf`/`nan`, underscores) is
outside the model of `pyFloatToInt` below. -/
def isSpaceChar (c : Char) : Bool :=
  c = ' ' ∨ c = '\t' ∨ c = '\n' ∨ c = '\r'

/-- Strip leading and trailing whitespace from a character list (the
whitespace stripping `float()` performs on its string argument). -/
def trimChars (l : List Char) : List Char :=
  ((l.dropWhile isSpaceChar).reverse.dropWhile isSpaceChar).reverse

/-- Model of the Python conversion `int(float(s))` used by
`CSVRow.get_level` (models.py line 62), restricted to plain decimal
numerals: optional surrounding whitespace, an optional sign, digits with an
optional single fractional part.  The result truncates toward zero, exactly
as `int()` does.  Any other string (e.g. `"abc"`, `""`) fails, modelling the
`ValueError` that `float()` raises. -/
def pyFloatToInt (s : String) : Option Int :=
  let t := trimChars s.toList
  let core : Int × List Char :=
    match t with
    | '+' :: rest => (1, rest)
    | '-' :: rest => (-1, rest)
    | rest => (1, rest)
  let intPart := core.2.takeWhile Char.isDigit
  let rest := core.2.dropWhile Char.isDigit
  let natVal : Nat := intPart.foldl (fun acc c => acc * 10 + (c.toNat - '0'.toNat)) 0
  match rest with
  | [] => if intPart.isEmpty then none else some (core.1 * natVal)
  | '.' :: frac =>
      if frac.all Char.isDigit ∧ (intPart ≠ [] ∨ frac ≠ []) then
        some (core.1 * natVal)
      else none
  | _ => none

/-- `CSVRow.get_level` (models.py lines 57-62): `None` falls back to the
default label, otherwise `str(int(float(level)))`; a malformed level string
raises (`Except.error`). -/
def getLevelE (r : CSVRow) : Except Unit String :=
  match r.level with
  | none => Except.ok "عام"
  | some s =>
      match pyFloatToInt s with
      | some n => Except.ok (toString n)
      | none => Except.error ()

/-- The specialty key component
`csv_row.speciality or csv_row.specialy_level or "عام"`
(`group_rows_by_speciality_level`, csv_converter.py line 138). -/
def specKey (r : CSVRow) : String :=
  match truthyStr r.speciality with
  | some s => s
  | none =>
      match truthyStr r.specialyLevel with
      | some s => s
      | none => "عام"

/-- The partition key `(speciality, level)` of one row
(csv_converter.py lines 138-141); errors exactly when `get_level` raises. -/
def rowKeyE (r : CSVRow) : Except Unit (String × String) :=
  (getLevelE r).map (fun l => (specKey r, l))

/-- A partition key: (specialty, level). -/
abbrev GKey := String × String

/-- One step of the grouping loop: `grouped_rows[key].append(csv_row)` after
`if key not in grouped_rows: grouped_rows[key] = []`
(csv_converter.py lines 141-144), on an insertion-ordered association list
(the model of the Python dict, whose keys are unique): append the row to the
entry holding the key, or add a new entry at the end. -/
def insertG : List (GKey × List CSVRow) → GKey → CSVRow → List (GKey × List CSVRow)
  | [], k, r => [(k, [r])]
  | e :: rest, k, r =>
      if e.1 = k then (e.1, e.2 ++ [r]) :: rest else e :: insertG rest k r

/-- Key extraction for each row in order; stops at the first row whose level
is malformed, exactly as the Python loop raises there. -/
def keyRows : List CSVRow → Except Unit (List (GKey × CSVRow))
  | [] => Except.ok []
  | r :: rs =>
      match rowKeyE r with
      | Except.error e => Except.error e
      | Except.ok k =>
          match keyRows rs with
          | Except.error e => Except.error e
          | Except.ok ps => Except.ok ((k, r) :: ps)

/-- The insertion loop of `group_rows_by_speciality_level` over already
extracted (key, row) pairs. -/
def groupPairs (ps : List (GKey × CSVRow)) : List (GKey × List CSVRow) :=
  ps.foldl (fun acc p => insertG acc p.1 p.2) []

/-- `CSVConverter.group_rows_by_speciality_level` (csv_converter.py lines
132-146): an insertion-ordered dict from (specialty, level) to the rows with
that key; the whole call raises if any row's level is malformed.  The Python
loop computes each row's key and inserts it in one pass; the embedding
phrases this as key extraction (`keyRows`) followed by the insertion fold,
which produces the identical dict and the identical error behaviour. -/
def groupRowsE (rows : List CSVRow) : Except Unit (List (GKey × List CSVRow)) :=
  (keyRows rows).map groupPairs

/-- `grouped_rows.get(k, [])`: the partition stored under key `k`. -/
def lookupG (g : List (GKey × List CSVRow)) (k : GKey) : List CSVRow :=
  match g.find? (fun e => e.1 = k) with
  | some e => e.2
  | none => []

/-- Concrete row with everything missing that can be missing. -/
def rowAllMissing : CSVRow :=
  { day := "x", slot := 0, isHalfSlot := none, code := "C9"
    speciality := none, activityType := "lecture", location := "hall"
    level := none, courseName := none, specialyLevel := none
    mainTutorWrite := none, helpingStuffWrite := none }

/-- Concrete row whose level string is not numeric. -/
def rowBadLevel : CSVRow :=
  { rowX with level := some "abc" }

end Sched

/-- C7 (as stated, refuted): the claim asserts the key computation never
raises for any input record, but `CSVRow.get_level` applies
`int(float(level))`, which raises `ValueError` for a present, non-numeric
level string.  Concretely, a row with `level = "abc"` makes the key
computation (and hence the whole grouping call) fail. -/
theorem C7_counterexample :
    Sched.rowKeyE Sched.rowBadLevel = Except.error ()
    ∧ Sched.groupRowsE [Sched.rowBadLevel] = Except.error () := by
  constructor <;> rfl

/-- C7 (amended): for every record whose specialty or level key component is
missing, the key selector substitutes the configured default label "عام" and
does not raise; the key computation also never raises when the level, if
present, is a well-formed decimal numeral.  (It does raise for a present
malformed level string — see the counterexample.) -/
theorem C7_missing_key_fallback :
    (∀ r : Sched.CSVRow,
      Sched.truthyStr r.speciality = none →
      Sched.truthyStr r.specialyLevel = none →
      Sched.specKey r = "عام")
    ∧ (∀ r : Sched.CSVRow, r.level = none →
        Sched.rowKeyE r = Except.ok (Sched.specKey r, "عام"))
    ∧ (∀ (r : Sched.CSVRow) (s : String), r.level = some s →
        (Sched.pyFloatToInt s).isSome → (Sched.rowKeyE r).isOk) := by
  refine ⟨?_, ?_, ?_⟩
  · intro r h1 h2
    simp [Sched.specKey, h1, h2]
  · intro r h
    simp [Sched.rowKeyE, Sched.getLevelE, h, Except.map]
  · intro r s h hs
    cases hv : Sched.pyFloatToInt s with
    | none => rw [hv] at hs; simp at hs
    | some n =>
        simp [Sched.rowKeyE, Sched.getLevelE, h, hv, Except.map, Except.isOk, Except.toBool]

/-- Witness for C7: a concrete row with missing specialty and level maps to
the ("عام", "عام") key without raising. -/
theorem C7_missing_key_fallback_witness :
    Sched.specKey Sched.rowAllMissing = "عام" ∧
    Sched.rowKeyE Sched.rowAllMissing = Except.ok ("عام", "عام") :=
  ⟨(C7_missing_key_fallback.1 Sched.rowAllMissing (by decide) (by decide)),
   (C7_missing_key_fallback.2.1 Sched.rowAllMissing (by decide))⟩

namespace Sched

/-- Keys after one insertion: unchanged when the key is present, appended
otherwise. -/
theorem keys_insertG (acc : List (GKey × List CSVRow)) (k : GKey) (r : CSVRow) :
    (insertG acc k r).map Prod.fst =
      if k ∈ acc.map Prod.fst then acc.map Prod.fst
      else acc.map Prod.fst ++ [k] := by
  induction acc with
  | nil => simp [insertG]
  | cons e rest ih =>
      by_cases h : e.1 = k
      · simp [insertG, h]
      · have h' : ¬(k = e.1) := fun hh => h hh.symm
        by_cases h2 : k ∈ rest.map Prod.fst <;>
          simp [insertG, h, h', h2, ih]

/-- Insertion preserves key uniqueness. -/
theorem nodup_keys_insertG {acc : List (GKey × List CSVRow)} (k : GKey)
    (r : CSVRow) (h : (acc.map Prod.fst).Nodup) :
    ((insertG acc k r).map Prod.fst).Nodup := by
  rw [keys_insertG]
  by_cases h2 : k ∈ acc.map Prod.fst
  · simpa [h2] using h
  · simp [h2, List.nodup_append, h]

/-- Looking up the inserted key returns the old partition with the row
appended. -/
theorem lookupG_insertG_self (acc : List (GKey × List CSVRow)) (k : GKey)
    (r : CSVRow) :
    lookupG (insertG acc k r) k = lookupG acc k ++ [r] := by
  induction acc with
  | nil => simp [insertG, lookupG, List.find?]
  | cons e rest ih =>
      by_cases h : e.1 = k
      · simp [insertG, lookupG, List.find?, h]
      · simp only [insertG, if_neg h]
        simpa [lookupG, List.find?, h] using ih

/-- Looking up a different key is unchanged by the insertion. -/
theorem lookupG_insertG_ne (acc : List (GKey × List CSVRow)) {k k' : GKey}
    (r : CSVRow) (h : k' ≠ k) :
    lookupG (insertG acc k r) k' = lookupG acc k' := by
  have h' : ¬(k = k') := fun hh => h hh.symm
  induction acc with
  | nil => simp [insertG, lookupG, List.find?, h']
  | cons e rest ih =>
      by_cases he : e.1 = k
      · have he' : ¬(e.1 = k') := fun hh => h (hh.symm.trans he)
        simp only [insertG, if_pos he]
        simp [lookupG, List.find?, he']
      · simp only [insertG, if_neg he]
        by_cases he2 : e.1 = k'
        · simp [lookupG, List.find?, he2]
        · simpa [lookupG, List.find?, he2] using ih

/-- Lookup through the whole insertion fold: the partition of key `k` is the
old one followed by the second components of the pairs keyed `k`, in input
order. -/
theorem lookupG_groupFold (ps : List (GKey × CSVRow)) :
    ∀ (acc : List (GKey × List CSVRow)) (k : GKey),
      lookupG (ps.foldl (fun a p => insertG a p.1 p.2) acc) k =
        lookupG acc k ++ (ps.filter (fun p => p.1 = k)).map Prod.snd := by
  induction ps with
  | nil => intro acc k; simp
  | cons p ps ih =>
      intro acc k
      simp only [List.foldl_cons]
      rw [ih]
      by_cases h : p.1 = k
      · rw [← h, lookupG_insertG_self]
        simp [List.filter_cons, h, List.append_assoc]
      · have h' : k ≠ p.1 := fun hh => h hh.symm
        rw [lookupG_insertG_ne _ _ h']
        simp [List.filter_cons, h]

/-- Key uniqueness through the whole insertion fold. -/
theorem nodup_keys_groupFold (ps : List (GKey × CSVRow)) :
    ∀ acc : List (GKey × List CSVRow), (acc.map Prod.fst).Nodup →
      ((ps.foldl (fun a p => insertG a p.1 p.2) acc).map Prod.fst).Nodup := by
  induction ps with
  | nil => intro acc h; simpa
  | cons p ps ih =>
      intro acc h
      exact ih _ (nodup_keys_insertG _ _ h)

/-- Flattening after one insertion is a permutation of the old flattening
with the row appended. -/
theorem flat_insertG (acc : List (GKey × List CSVRow)) (k : GKey) (r : CSVRow) :
    ((insertG acc k r).flatMap Prod.snd).Perm (acc.flatMap Prod.snd ++ [r]) := by
  induction acc with
  | nil => simp [insertG]
  | cons e rest ih =>
      by_cases h : e.1 = k
      · simp only [insertG, if_pos h, List.flatMap_cons]
        have hp := List.Perm.append_left e.2
          (@List.perm_append_comm _ [r] (rest.flatMap Prod.snd))
        simpa [List.append_assoc] using hp
      · simp only [insertG, if_neg h, List.flatMap_cons]
        rw [List.append_assoc]
        exact List.Perm.append_left e.2 ih

/-- Flattening after the whole insertion fold: the union of all partitions is
a permutation of the inserted rows (appended to the old flattening). -/
theorem flat_groupFold (ps : List (GKey × CSVRow)) :
    ∀ acc : List (GKey × List CSVRow),
      ((ps.foldl (fun a p => insertG a p.1 p.2) acc).flatMap Prod.snd).Perm
        (acc.flatMap Prod.snd ++ ps.map Prod.snd) := by
  induction ps with
  | nil => intro acc; simp
  | cons p ps ih =>
      intro acc
      simp only [List.foldl_cons, List.map_cons]
      refine (ih _).trans ?_
      have h1 := (flat_insertG acc p.1 p.2).append_right (ps.map Prod.snd)
      refine h1.trans ?_
      simp [List.append_assoc]

/-- The second components of an `ok` key extraction are the rows themselves. -/
theorem keyRows_ok_snd :
    ∀ (rows : List CSVRow) (ps : List (GKey × CSVRow)),
      keyRows rows = Except.ok ps → ps.map Prod.snd = rows := by
  intro rows
  induction rows with
  | nil => intro ps h; cases h; rfl
  | cons r rs ih =>
      intro ps h
      unfold keyRows at h
      cases hk : rowKeyE r with
      | error e => rw [hk] at h; cases h
      | ok k =>
          rw [hk] at h
          cases hrs : keyRows rs with
          | error e => rw [hrs] at h; cases h
          | ok ps' =>
              rw [hrs] at h
              cases h
              simp [ih ps' hrs]

/-- Filtering an `ok` key extraction by key matches filtering the rows by
their computed key. -/
theorem keyRows_ok_filter :
    ∀ (rows : List CSVRow) (ps : List (GKey × CSVRow)) (k : GKey),
      keyRows rows = Except.ok ps →
      (ps.filter (fun p => p.1 = k)).map Prod.snd =
        rows.filter (fun r => rowKeyE r = Except.ok k) := by
  intro rows
  induction rows with
  | nil => intro ps k h; cases h; rfl
  | cons r rs ih =>
      intro ps k h
      unfold keyRows at h
      cases hk : rowKeyE r with
      | error e => rw [hk] at h; cases h
      | ok k0 =>
          rw [hk] at h
          cases hrs : keyRows rs with
          | error e => rw [hrs] at h; cases h
          | ok ps' =>
              rw [hrs] at h
              cases h
              by_cases h2 : k0 = k <;>
                simp [List.filter_cons, hk, h2, ih ps' k hrs]

end Sched

namespace Sched

/-- Lexicographic strict order on character lists by code point — Python's
string comparison. -/
def lexLt : List Char → List Char → Bool
  | [], [] => false
  | [], _ :: _ => true
  | _ :: _, [] => false
  | a :: as, b :: bs =>
      if a < b then true else if b < a then false else lexLt as bs

/-- Python's `<` on strings (code-point lexicographic). -/
def strLt (a b : String) : Bool := lexLt a.toList b.toList

/-- Ascending lexicographic order on (specialty, level) key tuples — the
order Python's tuple comparison gives `schedules.sort(key=...)`
(csv_converter.py line 193): strictly smaller first component, or equal
first components and non-strictly smaller second component. -/
def keyLe (a b : GKey) : Prop :=
  strLt a.1 b.1 = true ∨ (a.1 = b.1 ∧ strLt b.2 a.2 = false)

instance : DecidableRel keyLe := fun a b => by
  unfold keyLe; infer_instance

theorem lexLt_asymm : ∀ a b : List Char, lexLt a b = true → lexLt b a = false := by
  intro a
  induction a with
  | nil =>
      intro b h
      cases b <;> simp [lexLt] at h ⊢
  | cons x xs ih =>
      intro b h
      cases b with
      | nil => simp [lexLt] at h
      | cons y ys =>
          simp only [lexLt] at h ⊢
          by_cases h1 : x < y
          · simp [h1, lt_asymm h1]
          · by_cases h2 : y < x
            · simp [h1, h2] at h
            · simp [h1, h2] at h ⊢
              exact ih ys h

theorem lexLt_connex :
    ∀ a b : List Char, lexLt a b = false → lexLt b a = false → a = b := by
  intro a
  induction a with
  | nil =>
      intro b h1 h2
      cases b with
      | nil => rfl
      | cons y ys => simp [lexLt] at h1
  | cons x xs ih =>
      intro b h1 h2
      cases b with
      | nil => simp [lexLt] at h2
      | cons y ys =>
          rcases lt_trichotomy x y with h | h | h
          · simp [lexLt, h] at h1
          · subst h
            simp only [lexLt, lt_irrefl, if_neg (lt_irrefl x), if_false] at h1 h2
            rw [ih ys h1 h2]
          · simp [lexLt, h, lt_asymm h] at h2

theorem lexLt_trans :
    ∀ a b c : List Char, lexLt a b = true → lexLt b c = true →
      lexLt a c = true := by
  intro a
  induction a with
  | nil =>
      intro b c h1 h2
      cases b with
      | nil => simp [lexLt] at h1
      | cons y ys =>
          cases c with
          | nil => simp [lexLt] at h2
          | cons z zs => simp [lexLt]
  | cons x xs ih =>
      intro b c h1 h2
      cases b with
      | nil => simp [lexLt] at h1
      | cons y ys =>
          cases c with
          | nil => simp [lexLt] at h2
          | cons z zs =>
              simp only [lexLt] at h1 h2 ⊢
              by_cases hxy : x < y
              · by_cases hyz : y < z
                · simp [lt_trans hxy hyz]
                · by_cases hzy : z < y
                  · simp [hyz, hzy] at h2
                  · have : y = z := by
                      rcases lt_trichotomy y z with h | h | h
                      · exact absurd h hyz
                      · exact h
                      · exact absurd h hzy
                    subst this
                    simp [hxy]
              · by_cases hyx : y < x
                · simp [hxy, hyx] at h1
                · have hxy' : x = y := by
                    rcases lt_trichotomy x y with h | h | h
                    · exact absurd h hxy
                    · exact h
                    · exact absurd h hyx
                  subst hxy'
                  simp only [hxy, if_neg hxy] at h1 ⊢
                  by_cases hyz : x < z
                  · simp [hyz]
                  · by_cases hzy : z < x
                    · simp [hyz, hzy] at h2
                    · simp only [hyz, hzy, if_neg hyz, if_neg hzy] at h2 ⊢
                      simp at h1
                      exact ih ys zs h1 h2

theorem strLt_trans {a b c : String} (h1 : strLt a b = true)
    (h2 : strLt b c = true) : strLt a c = true :=
  lexLt_trans _ _ _ h1 h2

theorem strLt_connex {a b : String} (h1 : strLt a b = false)
    (h2 : strLt b a = false) : a = b := by
  have := lexLt_connex a.toList b.toList h1 h2
  exact String.ext this

theorem strLt_asymm {a b : String} (h : strLt a b = true) :
    strLt b a = false :=
  lexLt_asymm _ _ h

/-- `models.SpecialityLevelSchedule`. -/
structure SLSched where
  speciality : String
  level : String
  weekly : WeeklySchedule

/-- The sort key `lambda x: (x.speciality, x.level)` (csv_converter.py
line 193). -/
def schedKey (s : SLSched) : GKey := (s.speciality, s.level)

/-- Building one `SpecialityLevelSchedule` from a partition
(csv_converter.py lines 177-190). -/
def schedOf (e : GKey × List CSVRow) : SLSched :=
  ⟨e.1.1, e.1.2, convertToWeeklySchedule e.2⟩

/-- Comparison of schedules by their key tuple. -/
def schedLe (a b : SLSched) : Prop := keyLe (schedKey a) (schedKey b)

instance : DecidableRel schedLe := fun a b => by
  unfold schedLe; infer_instance

theorem keyLe_trans {a b c : GKey} (h1 : keyLe a b) (h2 : keyLe b c) :
    keyLe a c := by
  rcases h1 with h1 | ⟨e1, le1⟩ <;> rcases h2 with h2 | ⟨e2, le2⟩
  · exact Or.inl (strLt_trans h1 h2)
  · exact Or.inl (by rw [← e2]; exact h1)
  · exact Or.inl (by rw [e1]; exact h2)
  · refine Or.inr ⟨e1.trans e2, ?_⟩
    by_contra hc
    have hc' : strLt c.2 a.2 = true := by
      cases hv : strLt c.2 a.2 with
      | true => rfl
      | false => exact absurd hv hc
    cases hab : strLt a.2 b.2 with
    | true =>
        have hcb := strLt_trans hc' hab
        rw [hcb] at le2; cases le2
    | false =>
        have heq : a.2 = b.2 := strLt_connex hab le1
        have hfalse : strLt c.2 a.2 = false := by rw [heq]; exact le2
        rw [hc'] at hfalse; cases hfalse

theorem keyLe_total (a b : GKey) : keyLe a b ∨ keyLe b a := by
  cases h1 : strLt a.1 b.1 with
  | true => exact Or.inl (Or.inl h1)
  | false =>
      cases h2 : strLt b.1 a.1 with
      | true => exact Or.inr (Or.inl h2)
      | false =>
          have heq : a.1 = b.1 := strLt_connex h1 h2
          cases h3 : strLt b.2 a.2 with
          | false => exact Or.inl (Or.inr ⟨heq, h3⟩)
          | true => exact Or.inr (Or.inr ⟨heq.symm, strLt_asymm h3⟩)

instance : IsTrans SLSched schedLe := ⟨fun _ _ _ => keyLe_trans⟩

instance : IsTotal SLSched schedLe := ⟨fun _ _ => keyLe_total _ _⟩

/-- `schedules.sort(key=lambda x: (x.speciality, x.level))`
(csv_converter.py line 193), modelled as a stable sort by the key tuple. -/
def sortSchedules (l : List SLSched) : List SLSched :=
  List.insertionSort schedLe l

/-- `CSVConverter.convert_to_multi_level_schedule` (csv_converter.py lines
170-195): group by (specialty, level), build a weekly schedule per
partition, sort by the key tuple; errors exactly when grouping errors. -/
def multiLevelScheduleE (rows : List CSVRow) : Except Unit (List SLSched) :=
  (groupRowsE rows).map (fun g => sortSchedules (g.map schedOf))

/-- The ordered key tuples of the multi-level schedule. -/
def multiLevelKeysE (rows : List CSVRow) : Except Unit (List GKey) :=
  (multiLevelScheduleE rows).map (List.map schedKey)

/-- Scenario C rows: keys (A,100), (A,100), (B,100). -/
def rowCA1 : CSVRow := { rowX with courseName := some "a1" }

def rowCA2 : CSVRow := { rowX with courseName := some "a2" }

def rowCB : CSVRow := { rowX with speciality := some "B", courseName := some "b" }

def scRowsC : List CSVRow := [rowCA1, rowCA2, rowCB]

/-- The grouping of the scenario C rows. -/
def gC : List (GKey × List CSVRow) :=
  [(("A", "100"), [rowCA1, rowCA2]), (("B", "100"), [rowCB])]

end Sched

/-- C1: partitioning by (specialty, level) yields exactly one partition per
distinct key (keys are unique); every input record appears in exactly one
partition — the partition of key `k` is precisely the input rows whose key
is `k`, in input order, and the union of all partitions is a permutation of
the input; the resulting schedules are sorted ascending by the (specialty,
level) key tuple and are a permutation of the partitions.  In particular
three records with keys (A,100), (A,100), (B,100) yield exactly the ordered
key list [(A,100), (B,100)].  (The grouping call raises if some row's level
string is malformed — hypothesis `h`; see C7.) -/
theorem C1_partition_by_speciality_level
    (rows : List Sched.CSVRow) (g : List (Sched.GKey × List Sched.CSVRow))
    (h : Sched.groupRowsE rows = Except.ok g) :
    (g.map Prod.fst).Nodup
    ∧ (∀ k, Sched.lookupG g k =
        rows.filter (fun r => Sched.rowKeyE r = Except.ok k))
    ∧ (g.flatMap Prod.snd).Perm rows
    ∧ List.Sorted Sched.keyLe
        ((Sched.sortSchedules (g.map Sched.schedOf)).map Sched.schedKey)
    ∧ (Sched.sortSchedules (g.map Sched.schedOf)).Perm (g.map Sched.schedOf)
    ∧ Sched.multiLevelKeysE Sched.scRowsC =
        Except.ok [("A", "100"), ("B", "100")] := by
  obtain ⟨ps, hps, hg⟩ : ∃ ps, Sched.keyRows rows = Except.ok ps ∧
      Sched.groupPairs ps = g := by
    unfold Sched.groupRowsE at h
    cases hk : Sched.keyRows rows with
    | error e => rw [hk] at h; cases h
    | ok ps => rw [hk] at h; cases h; exact ⟨ps, rfl, rfl⟩
  subst hg
  refine ⟨?_, ?_, ?_, ?_, ?_, ?_⟩
  · exact Sched.nodup_keys_groupFold ps [] (by simp)
  · intro k
    unfold Sched.groupPairs
    rw [Sched.lookupG_groupFold]
    have hbase : Sched.lookupG [] k = [] := rfl
    rw [hbase, List.nil_append]
    exact Sched.keyRows_ok_filter rows ps k hps
  · unfold Sched.groupPairs
    have hp := Sched.flat_groupFold ps []
    simpa [Sched.keyRows_ok_snd rows ps hps] using hp
  · have hs := List.sorted_insertionSort Sched.schedLe
      ((Sched.groupPairs ps).map Sched.schedOf)
    rw [List.Sorted, List.pairwise_map]
    exact hs
  · exact List.perm_insertionSort Sched.schedLe _
  · decide

/-- Witness for C1: the concrete scenario C rows group into the two
partitions of `gC` with unique keys and the (A,100) partition holding
exactly its two rows in input order. -/
theorem C1_partition_by_speciality_level_witness :
    Sched.groupRowsE Sched.scRowsC = Except.ok Sched.gC
    ∧ (Sched.gC.map Prod.fst).Nodup
    ∧ Sched.lookupG Sched.gC ("A", "100") = [Sched.rowCA1, Sched.rowCA2] := by
  refine ⟨by decide, (C1_partition_by_speciality_level Sched.scRowsC Sched.gC (by decide)).1, ?_⟩
  have h := (C1_partition_by_speciality_level Sched.scRowsC Sched.gC (by decide)).2.1
    ("A", "100")
  rw [h]
  decide

namespace Sched

/-- A header/footer configuration section: the `"header"` and `"footer"`
sub-dicts of a config dict (word_generator.py `BASE_LEVEL_CONFIG` shape),
each modelled as a partial map from field name to text. -/
structure SectionConfig where
  header : String → Option String
  footer : String → Option String

/-- `BASE_LEVEL_CONFIG["header"]` (word_generator.py lines 48-57). -/
def baseHeader : String → Option String := fun k =>
  if k = "university_name" then some "جامعة الفيوم"
  else if k = "faculty_name" then some "كلية الهندسة"
  else if k = "department_prefix" then some "قسم الهندسة الكهربية"
  else if k = "academic_year" then some "العام الجامعي 2025 - 2026"
  else if k = "semester" then some "الفصل الدراسي الأول"
  else if k = "division_prefix" then some "شعبة"
  else if k = "level_prefix" then some "الفرقة"
  else if k = "schedule_template" then some "شئون التعليم والطلاب الجداول الدراسية"
  else none

/-- `BASE_LEVEL_CONFIG["footer"]` (word_generator.py lines 58-65). -/
def baseFooter : String → Option String := fun k =>
  if k = "dean_title" then some "عميد الكلية"
  else if k = "dean_name" then some "ا.د. رانيا احمد عبدالعظيم"
  else if k = "vice_dean_title" then some "وكيل الكلية لشئون التعليم والطلاب"
  else if k = "vice_dean_name" then some "ا.د. احمد سرج فريد"
  else if k = "head_department_title" then some "رئيس قسم الهندسة الكهربية"
  else if k = "head_department_name" then some "ا.د. عمرو رفعت"
  else none

/-- The override dict shared by `LEVEL_OVERRIDES["100"]` and
`LEVEL_OVERRIDES["200"]` (word_generator.py lines 69-86). -/
def levelOvCfg : SectionConfig :=
  { header := fun k => if k = "level_prefix" then some "المستوي" else none
    footer := fun k => if k = "program_manager_title" then some "منسق البرنامج" else none }

/-- `LEVEL_OVERRIDES` (word_generator.py lines 69-86): only levels "100" and
"200" carry an override. -/
def levelOverrides (level : String) : Option SectionConfig :=
  if level = "100" ∨ level = "200" then some levelOvCfg else none

/-- An empty override map, modelling the absence of the `"header"` key in
`SPECIALTY_OVERRIDES` entries (updating with it is the same as skipping the
`if "header" in specialty_override` branch). -/
def emptyDict : String → Option String := fun _ => none

/-- `SPECIALTY_OVERRIDES["comm"]` (word_generator.py lines 90-94). -/
def commOvCfg : SectionConfig :=
  { header := emptyDict
    footer := fun k => if k = "program_manager_name" then some "أ.د محمد حمدي" else none }

/-- `SPECIALTY_OVERRIDES["pow"]` (word_generator.py lines 95-99). -/
def powOvCfg : SectionConfig :=
  { header := emptyDict
    footer := fun k => if k = "program_manager_name" then some "أ.د خالد حسني" else none }

/-- `SPECIALTY_OVERRIDES` (word_generator.py lines 89-100). -/
def specialtyOverrides (sp : String) : Option SectionConfig :=
  if sp = "comm" then some commOvCfg
  else if sp = "pow" then some powOvCfg
  else none

/-- Python `dict.update(o)` on a field map: fields of `o` replace or add to
`d`; fields absent from `o` keep their `d` value. -/
def dictUpdate (d o : String → Option String) : String → Option String :=
  fun k =>
    match o k with
    | some v => some v
    | none => d k

/-- The `config["header"].update(...)` / `config["footer"].update(...)` pair
for the level layer (word_generator.py lines 127-136). -/
def applyLevelOverride (c : SectionConfig) (level : String) : SectionConfig :=
  match levelOverrides level with
  | some o => ⟨dictUpdate c.header o.header, dictUpdate c.footer o.footer⟩
  | none => c

/-- The specialty layer (word_generator.py lines 139-148): applied only when
`specialty` is truthy and has an override entry. -/
def applySpecialtyOverride (c : SectionConfig) (specialty : Option String) :
    SectionConfig :=
  match truthyStr specialty with
  | some sp =>
      match specialtyOverrides sp with
      | some o => ⟨dictUpdate c.header o.header, dictUpdate c.footer o.footer⟩
      | none => c
  | none => c

/-- Module-level `_get_level_config` (word_generator.py lines 119-150):
start from a deep copy of the base configuration, overlay the level layer,
then the specialty layer. -/
def getLevelConfig (level : String) (specialty : Option String) : SectionConfig :=
  applySpecialtyOverride (applyLevelOverride ⟨baseHeader, baseFooter⟩ level) specialty

/-- `allowed_levels` in `WordGenerator._validate_level`
(word_generator.py line 296). -/
def allowedLevels : List String := ["100", "200", "300", "400"]

/-- The `ValueError` message f-string of `_validate_level`
(word_generator.py line 298). -/
def levelErrMsg (level : String) : String :=
  "Level must be one of ['100', '200', '300', '400'], got: " ++ level

/-- `WordGenerator._validate_level` (word_generator.py lines 294-299). -/
def validateLevelE (level : String) : Except String String :=
  if level ∈ allowedLevels then Except.ok level else Except.error (levelErrMsg level)

/-- `WordGenerator._get_level_config` (word_generator.py lines 301-304):
validate, then resolve the layered configuration. -/
def wgGetLevelConfigE (level : String) (specialty : Option String) :
    Except String SectionConfig :=
  match validateLevelE level with
  | Except.ok l => Except.ok (getLevelConfig l specialty)
  | Except.error e => Except.error e

/-- `LEVEL_MAPPING` (word_generator.py lines 19-24). -/
def levelMapping (l : String) : Option String :=
  if l = "100" then some "الأول"
  else if l = "200" then some "الثاني"
  else if l = "300" then some "الثالث"
  else if l = "400" then some "الرابع"
  else none

/-- `LEVEL_SPECIALITY_MAPPING` (word_generator.py lines 34-39): only "comm"
has level-dependent display text, for levels "100" and "200". -/
def levelSpecialityMapping (sp : String) : Option (String → Option String) :=
  if sp = "comm" then
    some (fun l =>
      if l = "100" ∨ l = "200" then some "الاتصالات والحاسبات" else none)
  else none

/-- `SPECIALITY_MAPPING` (word_generator.py lines 27-31). -/
def specialityMapping (sp : String) : Option String :=
  if sp = "pow" then some "القوي والآلات الكهربية"
  else if sp = "comm" then some "الاتصالات"
  else if sp = "comp" then some "الحاسبات"
  else none

/-- `_get_mapped_speciality` (word_generator.py lines 107-116): use the
level-dependent mapping when one applies, otherwise
`SPECIALITY_MAPPING.get(speciality, speciality)`. -/
def getMappedSpeciality (sp : String) (level : Option String) : String :=
  match levelSpecialityMapping sp with
  | some m =>
      (match truthyStr level with
       | some l =>
           (match m l with
            | some v => v
            | none => (specialityMapping sp).getD sp)
       | none => (specialityMapping sp).getD sp)
  | none => (specialityMapping sp).getD sp

/-- An update never removes a field present in the lower layer. -/
theorem dictUpdate_isSome_mono (d o : String → Option String) (k : String)
    (h : (d k).isSome) : ((dictUpdate d o) k).isSome := by
  unfold dictUpdate
  cases o k <;> simp [h]

end Sched

/-- C3: when both a level override and a specialty override exist, the
resolved configuration equals the base overwritten field-by-field first by
the level layer and then by the specialty layer (shallow merge per field,
within header and footer), and every field present in a lower layer (base,
or base+level) is still present in the resolved result. -/
theorem C3_config_layering
    (level sp : String) (lo so : Sched.SectionConfig)
    (hl : Sched.levelOverrides level = some lo)
    (hs : Sched.specialtyOverrides sp = some so) :
    (Sched.getLevelConfig level (some sp)).header =
        Sched.dictUpdate (Sched.dictUpdate Sched.baseHeader lo.header) so.header
    ∧ (Sched.getLevelConfig level (some sp)).footer =
        Sched.dictUpdate (Sched.dictUpdate Sched.baseFooter lo.footer) so.footer
    ∧ (∀ k, (Sched.baseHeader k).isSome →
        ((Sched.getLevelConfig level (some sp)).header k).isSome)
    ∧ (∀ k, (Sched.baseFooter k).isSome →
        ((Sched.getLevelConfig level (some sp)).footer k).isSome)
    ∧ (∀ k, ((Sched.dictUpdate Sched.baseHeader lo.header) k).isSome →
        ((Sched.getLevelConfig level (some sp)).header k).isSome)
    ∧ (∀ k, ((Sched.dictUpdate Sched.baseFooter lo.footer) k).isSome →
        ((Sched.getLevelConfig level (some sp)).footer k).isSome) := by
  have hsp : sp ≠ "" := by
    intro he
    rw [he] at hs
    have hnone : Sched.specialtyOverrides "" = none := rfl
    rw [hnone] at hs
    cases hs
  have hcfg : Sched.getLevelConfig level (some sp) =
      ⟨Sched.dictUpdate (Sched.dictUpdate Sched.baseHeader lo.header) so.header,
       Sched.dictUpdate (Sched.dictUpdate Sched.baseFooter lo.footer) so.footer⟩ := by
    unfold Sched.getLevelConfig Sched.applyLevelOverride Sched.applySpecialtyOverride
    rw [hl]
    simp only [Sched.truthyStr, if_neg hsp]
    rw [hs]
  rw [hcfg]
  refine ⟨rfl, rfl, ?_, ?_, ?_, ?_⟩
  · intro k h
    exact Sched.dictUpdate_isSome_mono _ _ _ (Sched.dictUpdate_isSome_mono _ _ _ h)
  · intro k h
    exact Sched.dictUpdate_isSome_mono _ _ _ (Sched.dictUpdate_isSome_mono _ _ _ h)
  · intro k h
    exact Sched.dictUpdate_isSome_mono _ _ _ h
  · intro k h
    exact Sched.dictUpdate_isSome_mono _ _ _ h

/-- Witness for C3 at (level "100", specialty "comm"): the resolved footer
is exactly base overlaid by the level layer then the comm layer, and the
base field `dean_title` survives the overlays. -/
theorem C3_config_layering_witness :
    (Sched.getLevelConfig "100" (some "comm")).footer =
      Sched.dictUpdate (Sched.dictUpdate Sched.baseFooter Sched.levelOvCfg.footer)
        Sched.commOvCfg.footer
    ∧ ((Sched.getLevelConfig "100" (some "comm")).footer "dean_title").isSome := by
  have h := C3_config_layering "100" "comm" Sched.levelOvCfg Sched.commOvCfg rfl rfl
  exact ⟨h.2.1, h.2.2.2.1 "dean_title" (by decide)⟩

/-- C4: resolving section configuration for a level outside
{"100","200","300","400"} fails fast with the validation error and produces
no configuration (e.g. level "250"), while a specialty code with no mapping
entry does not fail: its display text falls back to the code itself. -/
theorem C4_level_validation_and_specialty_fallback :
    (∀ (level : String) (sp : Option String), level ∉ Sched.allowedLevels →
        Sched.wgGetLevelConfigE level sp = Except.error (Sched.levelErrMsg level))
    ∧ (∀ (sp : String) (level : Option String), Sched.specialityMapping sp = none →
        Sched.getMappedSpeciality sp level = sp)
    ∧ Sched.wgGetLevelConfigE "250" none = Except.error (Sched.levelErrMsg "250") := by
  refine ⟨?_, ?_, ?_⟩
  · intro level sp h
    unfold Sched.wgGetLevelConfigE Sched.validateLevelE
    simp [h]
  · intro sp level h
    have hc : ¬(sp = "comm") := by
      intro he
      rw [he] at h
      have : Sched.specialityMapping "comm" = some "الاتصالات" := by decide
      rw [this] at h
      cases h
    unfold Sched.getMappedSpeciality Sched.levelSpecialityMapping
    simp only [if_neg hc]
    rw [h]
    rfl
  · have h250 : ("250" : String) ∉ Sched.allowedLevels := by decide
    unfold Sched.wgGetLevelConfigE Sched.validateLevelE
    simp [h250]

/-- Witness for C4: level "250" is rejected with the validation error and
an unmapped specialty "mech" displays as itself. -/
theorem C4_level_validation_and_specialty_fallback_witness :
    Sched.wgGetLevelConfigE "250" none = Except.error (Sched.levelErrMsg "250")
    ∧ Sched.getMappedSpeciality "mech" none = "mech" :=
  ⟨C4_level_validation_and_specialty_fallback.1 "250" none (by decide),
   C4_level_validation_and_specialty_fallback.2.1 "mech" none (by decide)⟩

namespace Sched

/-- Python subscript `footer_config[k]`: the value, or a `KeyError` naming
the missing key. -/
def pyGetF (f : String → Option String) (k : String) : Except String String :=
  match f k with
  | some v => Except.ok v
  | none => Except.error k

/-- The cell texts `WordGenerator._fill_footer_content` writes, in source
order (word_generator.py lines 1000-1038): when `program_manager_title` is a
footer key, eight subscript reads ending with `program_manager_name`;
otherwise six.  Errors model the `KeyError` of the first missing key. -/
def fillFooterCells (f : String → Option String) : Except String (List String) :=
  if (f "program_manager_title").isSome then do
    let a ← pyGetF f "dean_title"
    let b ← pyGetF f "dean_name"
    let c ← pyGetF f "vice_dean_title"
    let d ← pyGetF f "vice_dean_name"
    let e ← pyGetF f "head_department_title"
    let g ← pyGetF f "head_department_name"
    let h ← pyGetF f "program_manager_title"
    let i ← pyGetF f "program_manager_name"
    pure [a, b, c, d, e, g, h, i]
  else do
    let a ← pyGetF f "dean_title"
    let b ← pyGetF f "dean_name"
    let c ← pyGetF f "vice_dean_title"
    let d ← pyGetF f "vice_dean_name"
    let e ← pyGetF f "head_department_title"
    let g ← pyGetF f "head_department_name"
    pure [a, b, c, d, e, g]

/-- `WordGenerator._fill_footer_content` (word_generator.py lines
1000-1038): resolve the layered config (validating the level), then fill
the footer cells. -/
def fillFooterContent (level : String) (specialty : Option String) :
    Except String (List String) :=
  match wgGetLevelConfigE level specialty with
  | Except.error e => Except.error e
  | Except.ok cfg => fillFooterCells cfg.footer

/-- For a level carrying the level override and a specialty with no
override entry, the resolved footer is exactly base overlaid with the level
layer. -/
theorem footer_no_specialty_layer (level : String) (sp : Option String)
    (hlv : levelOverrides level = some levelOvCfg)
    (h1 : sp ≠ some "comm") (h2 : sp ≠ some "pow") :
    (getLevelConfig level sp).footer = dictUpdate baseFooter levelOvCfg.footer := by
  unfold getLevelConfig applyLevelOverride applySpecialtyOverride
  rw [hlv]
  cases sp with
  | none => rfl
  | some s =>
      by_cases hse : s = ""
      · simp [truthyStr, hse]
      · have hc : ¬(s = "comm") := fun hh => h1 (by rw [hh])
        have hp : ¬(s = "pow") := fun hh => h2 (by rw [hh])
        simp [truthyStr, hse, specialtyOverrides, hc, hp]

end Sched

/-- C9 (implicit): for every level in {"100","200"} and every specialty
outside {"comm","pow"} (including no specialty), filling the footer raises a
`KeyError` on `program_manager_name`: the level override adds
`program_manager_title`, only the comm/pow specialty overrides add
`program_manager_name`, and `_fill_footer_content` unconditionally reads
`footer_config['program_manager_name']` whenever the title key is present —
so footer generation fails even though the level code is valid. -/
theorem C9_footer_keyerror
    (level : String) (sp : Option String)
    (hl : level = "100" ∨ level = "200")
    (h1 : sp ≠ some "comm") (h2 : sp ≠ some "pow") :
    Sched.fillFooterContent level sp = Except.error "program_manager_name" := by
  have hlv : Sched.levelOverrides level = some Sched.levelOvCfg := by
    rcases hl with h | h <;> rw [h] <;> rfl
  have hf := Sched.footer_no_specialty_layer level sp hlv h1 h2
  have hok : Sched.wgGetLevelConfigE level sp =
      Except.ok (Sched.getLevelConfig level sp) := by
    rcases hl with h | h <;> rw [h] <;> rfl
  unfold Sched.fillFooterContent
  rw [hok]
  dsimp only
  rw [hf]
  rfl

/-- Witness for C9: (level "100", specialty "comp") fails with the
`program_manager_name` `KeyError`. -/
theorem C9_footer_keyerror_witness :
    Sched.fillFooterContent "100" (some "comp") = Except.error "program_manager_name" :=
  C9_footer_keyerror "100" (some "comp") (Or.inl rfl) (by decide) (by decide)

namespace Sched

/-- The category-appropriate field written into a slot cell
(`_fill_content_rows`, word_generator.py lines 452-462): category rows 0-3
are course name, location, instructor, assistant; anything else writes "". -/
def categoryField (e : ScheduleEntry) (catIdx : Nat) : String :=
  if catIdx = 0 then e.courseName
  else if catIdx = 1 then e.location
  else if catIdx = 2 then e.instructor
  else if catIdx = 3 then e.assistant
  else ""

/-- The net state of one slot-group's (main, half) sub-column pair in one
content row: the texts written and whether the two cells were merged into
one. -/
structure SlotCells where
  mainText : String
  halfText : String
  merged : Bool
deriving DecidableEq, Repr

/-- The slot-group handling of `_fill_content_rows` (word_generator.py lines
446-496): an empty slot merges main+half and leaves both texts empty; an
occupied full slot merges and writes the category field; an occupied
half-slot writes the category field into the main sub-column only and
leaves the half sub-column a distinct empty cell (no merge). -/
def fillSlotGroup (entry : Option ScheduleEntry) (catIdx : Nat) : SlotCells :=
  match entry with
  | some e =>
      if e.isHalfSlot then
        { mainText := categoryField e catIdx, halfText := "", merged := false }
      else
        { mainText := categoryField e catIdx, halfText := "", merged := true }
  | none => { mainText := "", halfText := "", merged := true }

/-- The slot-group cells for a (day-row, category-row, slot-group) address
of the content area: the grid cell addressed is `weekly_schedule[day][slot]`
(word_generator.py lines 419-449). -/
def contentSlotCells (ws : WeeklySchedule) (d : Day) (catIdx : Nat) (s : Slot) :
    SlotCells :=
  fillSlotGroup (ws d s) catIdx

/-- Scenario B row: half-slot at (Monday, slot 2). -/
def rowHalf : CSVRow := { rowX with slot := 2, isHalfSlot := some true }

/-- Scenario D row: an occupied Sunday slot. -/
def rowSun : CSVRow := { rowX with day := "الاحد" }

/-- The entry built from the scenario B row. -/
def entryHalf : ScheduleEntry := createScheduleEntry rowHalf

end Sched

/-- C5: for every (day-row, category-row, slot-group) of the content area:
an empty cell merges main+half into one empty cell; an occupied cell with
half-slot = false merges main+half and writes the category-appropriate
field into the merged cell; an occupied cell with half-slot = true writes
the field into the main sub-column only, leaving the half sub-column a
distinct, empty, unmerged cell. -/
theorem C5_content_placement (ws : Sched.WeeklySchedule) (d : Sched.Day)
    (cat : Nat) (s : Sched.Slot) :
    (ws d s = none →
      Sched.contentSlotCells ws d cat s = ⟨"", "", true⟩)
    ∧ (∀ e, ws d s = some e → e.isHalfSlot = false →
      Sched.contentSlotCells ws d cat s = ⟨Sched.categoryField e cat, "", true⟩)
    ∧ (∀ e, ws d s = some e → e.isHalfSlot = true →
      Sched.contentSlotCells ws d cat s = ⟨Sched.categoryField e cat, "", false⟩) := by
  refine ⟨?_, ?_, ?_⟩
  · intro h
    simp [Sched.contentSlotCells, Sched.fillSlotGroup, h]
  · intro e he hh
    simp [Sched.contentSlotCells, Sched.fillSlotGroup, he, hh]
  · intro e he hh
    simp [Sched.contentSlotCells, Sched.fillSlotGroup, he, hh]

/-- Witness for C5 (scenario B): a half-slot record at (Monday, slot 2)
places the course name in the main sub-column and leaves the half
sub-column present, empty and unmerged. -/
theorem C5_content_placement_witness :
    Sched.contentSlotCells (Sched.convertToWeeklySchedule [Sched.rowHalf])
        Sched.Day.monday 0 Sched.Slot.second
      = ⟨Sched.categoryField Sched.entryHalf 0, "", false⟩ :=
  (C5_content_placement (Sched.convertToWeeklySchedule [Sched.rowHalf])
      Sched.Day.monday 0 Sched.Slot.second).2.2
    Sched.entryHalf (by decide) (by decide)

namespace Sched

/-- The day keys of `models.WeeklySchedule` in declaration order
(`list(weekly_schedule.keys())`, and `days_arabic`,
word_generator.py lines 243, 420). -/
def allDaysList : List Day := [.sunday, .monday, .tuesday, .wednesday, .thursday]

/-- The slot keys of `models.DaySchedule` in declaration order
(`day_schedule.values()`). -/
def slotList : List Slot := [.first, .second, .third, .fourth]

/-- `any(day_schedule.values())` (word_generator.py line 1244): the day has
at least one occupied slot. -/
def dayOccupied (ws : WeeklySchedule) (d : Day) : Bool :=
  slotList.any (fun s => (ws d s).isSome)

/-- `active_days` of `StaffWordGenerator.create_staff_table_structure`
(word_generator.py line 1244): the occupied days, in week order. -/
def activeDays (ws : WeeklySchedule) : List Day :=
  allDaysList.filter (dayOccupied ws)

/-- The day owning each content row of the staff table: 4 category rows per
active day (`_fill_staff_content_rows`, word_generator.py lines 1265-1327). -/
def staffDayRows (ws : WeeklySchedule) : List Day :=
  (activeDays ws).flatMap (fun d => List.replicate 4 d)

/-- `num_rows = len(active_days) * ROWS_PER_DAY + 1`
(word_generator.py line 1248). -/
def staffNumRows (ws : WeeklySchedule) : Nat :=
  (activeDays ws).length * 4 + 1

/-- The day owning each content row of the full-week table: all 5 days, 4
category rows each (`_fill_content_rows`, word_generator.py lines 415-502). -/
def fullDayRows : List Day :=
  allDaysList.flatMap (fun d => List.replicate 4 d)

/-- `TableDimensions.TOTAL_ROWS = 21` used by `create_table_structure`
(word_generator.py lines 216, 358). -/
def fullNumRows : Nat := 21

/-- Counting a day in the 4-rows-per-day expansion. -/
theorem count_flatMap_replicate (l : List Day) (d : Day) :
    (l.flatMap (fun x => List.replicate 4 x)).count d = 4 * l.count d := by
  induction l with
  | nil => simp
  | cons x xs ih =>
      have hrep : (List.replicate 4 x).count d = if d = x then 4 else 0 := by
        by_cases h : d = x
        · simp [h]
        · rw [if_neg h, List.count_eq_zero_of_not_mem]
          intro hm
          exact h (List.eq_of_mem_replicate hm)
      rw [List.flatMap_cons, List.count_append, ih, hrep, List.count_cons]
      by_cases h : d = x
      · have hb : (x == d) = true := beq_iff_eq.mpr h.symm
        rw [if_pos h, if_pos hb]
        omega
      · have hb : ¬((x == d) = true) := fun hbb => h (beq_iff_eq.mp hbb).symm
        rw [if_neg h, if_neg hb]
        omega

/-- Every day is a key of the weekly schedule. -/
theorem mem_allDaysList (d : Day) : d ∈ allDaysList := by
  cases d <;> simp [allDaysList]

end Sched

/-- C8: in the staff view, a day with zero occupied slots is omitted
entirely (it is not an active day and contributes no rows), while every
occupied day contributes exactly 4 category rows; the full-week and
location views always include all 5 days with 4 rows each, a fixed 21-row
table (1 header row + 5 days × 4 rows). -/
theorem C8_staff_view_day_filtering (ws : Sched.WeeklySchedule) :
    (∀ d, (∀ s, ws d s = none) →
        d ∉ Sched.activeDays ws ∧ (Sched.staffDayRows ws).count d = 0)
    ∧ (∀ d, (∃ s, (ws d s).isSome) → (Sched.staffDayRows ws).count d = 4)
    ∧ Sched.staffNumRows ws = 4 * (Sched.activeDays ws).length + 1
    ∧ (∀ d, Sched.fullDayRows.count d = 4)
    ∧ Sched.fullNumRows = 21 ∧ Sched.fullNumRows = 1 + 5 * 4 := by
  have hnodup : (Sched.activeDays ws).Nodup := by
    apply List.Nodup.filter
    decide
  refine ⟨?_, ?_, ?_, ?_, rfl, rfl⟩
  · intro d h
    have hocc : Sched.dayOccupied ws d = false := by
      simp [Sched.dayOccupied, Sched.slotList, h]
    have hmem : d ∉ Sched.activeDays ws := by
      intro hm
      have := List.of_mem_filter hm
      rw [hocc] at this
      cases this
    refine ⟨hmem, ?_⟩
    rw [Sched.staffDayRows, Sched.count_flatMap_replicate,
      List.count_eq_zero_of_not_mem hmem]
  · intro d h
    obtain ⟨s, hs⟩ := h
    have hocc : Sched.dayOccupied ws d = true := by
      apply List.any_eq_true.mpr
      refine ⟨s, ?_, hs⟩
      cases s <;> simp [Sched.slotList]
    have hmem : d ∈ Sched.activeDays ws :=
      List.mem_filter.mpr ⟨Sched.mem_allDaysList d, hocc⟩
    rw [Sched.staffDayRows, Sched.count_flatMap_replicate,
      List.count_eq_one_of_mem hnodup hmem]
  · rw [Sched.staffNumRows, Nat.mul_comm]
  · intro d
    cases d <;> decide

/-- Witness for C8 (scenario D): with Sunday occupied and Tuesday empty,
the staff table has no Tuesday rows and exactly 4 Sunday rows. -/
theorem C8_staff_view_day_filtering_witness :
    ((Sched.staffDayRows
        (Sched.convertToWeeklySchedule [Sched.rowSun])).count
      Sched.Day.tuesday = 0)
    ∧ ((Sched.staffDayRows
        (Sched.convertToWeeklySchedule [Sched.rowSun])).count
      Sched.Day.sunday = 4) :=
  ⟨((C8_staff_view_day_filtering
      (Sched.convertToWeeklySchedule [Sched.rowSun])).1
      Sched.Day.tuesday (by intro s; cases s <;> decide)).2,
   (C8_staff_view_day_filtering
      (Sched.convertToWeeklySchedule [Sched.rowSun])).2.1
      Sched.Day.sunday ⟨Sched.Slot.first, by decide⟩⟩

namespace Sched

/-- The half-slot column indices `TIME_SLOT_i_HALF`
(`ColumnType`, word_generator.py lines 159-174). -/
def halfCols : List Nat := [3, 6, 9, 12]

/-- The day owning content-day-block index `i` (`days_arabic` order,
word_generator.py line 243). -/
def dayOfIdx (i : Nat) : Day :=
  if i = 0 then .sunday
  else if i = 1 then .monday
  else if i = 2 then .tuesday
  else if i = 3 then .wednesday
  else .thursday

/-- The slot shown in half-slot column `c` (`slot_keys` order against
`time_slot_half_positions`, word_generator.py lines 264-275). -/
def slotOfHalfCol (c : Nat) : Slot :=
  if c = 3 then .first
  else if c = 6 then .second
  else if c = 9 then .third
  else .fourth

/-- The anchor (top-left) grid position of the merged region containing a
grid position of the 21×13 full-week table.  python-docx returns the merged
region's origin cell object at every grid position the region spans, so all
border operations address the anchor.  Merges performed by
`create_table_structure`:
header row always merges each slot's main+half pair
(`_fill_header_row`, lines 390-409); the day-label column merges each day's
4 rows vertically (lines 427-437; the guard `row_index + 3 < len(rows)`
always holds in the 21-row table); a content slot-group merges main+half
exactly when the addressed cell is empty or a full (non-half) slot
(lines 451-496). -/
def anchor (ws : WeeklySchedule) (p : Nat × Nat) : Nat × Nat :=
  if p.1 = 0 then
    (if p.2 ∈ halfCols then (0, p.2 - 1) else p)
  else if p.2 = 0 then (1 + 4 * ((p.1 - 1) / 4), 0)
  else if p.2 ∈ halfCols then
    (match ws (dayOfIdx ((p.1 - 1) / 4)) (slotOfHalfCol p.2) with
     | some e => if e.isHalfSlot then p else (p.1, p.2 - 1)
     | none => (p.1, p.2 - 1))
  else p

/-- `BorderWidth.THICK` (word_generator.py line 195): 2.25pt in eighths. -/
def thickW : Nat := 18

/-- `BorderWidth.THIN` (word_generator.py line 194): 0.5pt in eighths. -/
def thinW : Nat := 4

/-- The four edge widths of a `tcBorders` element. -/
structure BSpec where
  top : Nat
  bottom : Nat
  left : Nat
  right : Nat
deriving DecidableEq, Repr

/-- The all-thick spec `_apply_day_cell_borders` writes to a merged
day-label cell (word_generator.py lines 592-613). -/
def allThickB : BSpec := ⟨thickW, thickW, thickW, thickW⟩

/-- The `tcBorders` element `_apply_formatting` builds for the cell at grid
position (r, c) (word_generator.py lines 515-564): vertical borders always
thick; the top border thick on the header row and each day's first row; the
bottom border thick on each day's last row, and also on a day's first row in
the day-label column (the merged day cell bottom, lines 543-548). -/
def fmtSpec (r c : Nat) : BSpec :=
  { top := if r = 0 then thickW else if (r - 1) % 4 = 0 then thickW else thinW
    bottom :=
      if r = 0 then thinW
      else if (r - 1) % 4 = 0 then (if c = 0 then thickW else thinW)
      else if (r - 1) % 4 = 3 then thickW
      else thinW
    left := thickW
    right := thickW }

/-- The effective `tcBorders` of every table cell element, by anchor grid
position.  A duplicated `tcBorders` on one cell element (appended by
`_apply_formatting` when the cell already carries one from
`_apply_day_cell_borders` or from an earlier grid position of the same
merged region) is resolved to the first element — the one
`_apply_table_outline_borders` itself locates (first matching child,
lines 700-704) and edits. -/
def BState : Type := Nat × Nat → Option BSpec

/-- No cell carries a `tcBorders` yet. -/
def emptyBState : BState := fun _ => none

/-- `_apply_day_cell_borders`: remove any existing `tcBorders`, then append
(word_generator.py lines 578-613) — an overwrite. -/
def setSpec (st : BState) (p : Nat × Nat) (b : BSpec) : BState :=
  fun q => if q = p then some b else st q

/-- `tcPr.append(tcBorders)` without removal (`_apply_formatting`, line
564): with first-element-wins resolution, a no-op when the cell already
carries a spec. -/
def appendSpec (st : BState) (p : Nat × Nat) (b : BSpec) : BState :=
  match st p with
  | some _ => st
  | none => setSpec st p b

/-- In-place edit of the cell's first `tcBorders`
(`_apply_table_outline_borders`, lines 706-723). -/
def modifySpec (st : BState) (p : Nat × Nat) (f : BSpec → BSpec) : BState :=
  fun q => if q = p then (st q).map f else st q

/-- The first content row of each day block: where the day-label merge is
performed and `_apply_day_cell_borders` runs (lines 427-437). -/
def dayStartRows : List Nat := [1, 5, 9, 13, 17]

/-- Border state after `_fill_content_rows`: the five merged day-label
cells carry the all-thick spec; nothing else carries one. -/
def afterDayBorders : BState :=
  dayStartRows.foldl (fun st r => setSpec st (r, 0) allThickB) emptyBState

/-- All 21×13 grid positions in the row-major order of the
`table.rows` / `row.cells` traversal. -/
def allPositions : List (Nat × Nat) :=
  (List.range 21).flatMap (fun r => (List.range 13).map (fun c => (r, c)))

/-- Border state after `_apply_formatting` (lines 504-572): for each grid
position in traversal order, append the position's spec to its cell
element. -/
def afterFormatting (ws : WeeklySchedule) : BState :=
  allPositions.foldl
    (fun st q => appendSpec st (anchor ws q) (fmtSpec q.1 q.2))
    afterDayBorders

/-- The edit `_apply_table_outline_borders` applies at perimeter grid
position `q` (lines 706-723): set each outline-side edge to thick, leave
the other edges alone. -/
def outlineEdit (q : Nat × Nat) (b : BSpec) : BSpec :=
  { top := if q.1 = 0 then thickW else b.top
    bottom := if q.1 = 20 then thickW else b.bottom
    left := if q.2 = 0 then thickW else b.left
    right := if q.2 = 12 then thickW else b.right }

/-- `is_top_edge or is_bottom_edge or is_left_edge or is_right_edge`
(lines 692-698). -/
def isPerimeter (q : Nat × Nat) : Bool :=
  q.1 = 0 ∨ q.1 = 20 ∨ q.2 = 0 ∨ q.2 = 12

/-- Border state after `_apply_table_outline_borders` (lines 677-723), the
last border pass of `create_table_structure`. -/
def finalBorders (ws : WeeklySchedule) : BState :=
  allPositions.foldl
    (fun st q =>
      if isPerimeter q then modifySpec st (anchor ws q) (outlineEdit q) else st)
    (afterFormatting ws)

end Sched

namespace Sched

/-- Generic left-fold preservation of a state predicate. -/
theorem foldl_preserve {α β : Type} (P : α → Prop) (f : α → β → α)
    (h : ∀ a b, P a → P (f a b)) :
    ∀ (L : List β) (a : α), P a → P (L.foldl f a) := by
  intro L
  induction L with
  | nil => intro a ha; exact ha
  | cons x xs ih => intro a ha; exact ih _ (h _ _ ha)

/-- Header-row positions anchor in the header row. -/
theorem anchor_header_fst (ws : WeeklySchedule) (c : Nat) :
    (anchor ws (0, c)).1 = 0 := by
  unfold anchor
  by_cases h : c ∈ halfCols <;> simp [h]

/-- Day-column positions of content rows anchor at the day's first row. -/
theorem anchor_daycol (ws : WeeklySchedule) (r : Nat) (h0 : r ≠ 0) :
    anchor ws (r, 0) = (1 + 4 * ((r - 1) / 4), 0) := by
  unfold anchor
  simp [h0]

/-- Positions outside the header row and the day column keep their row, and
their anchor stays outside the day column. -/
theorem anchor_other (ws : WeeklySchedule) (r c : Nat) (h0 : r ≠ 0)
    (hc : c ≠ 0) :
    (anchor ws (r, c)).1 = r ∧ (anchor ws (r, c)).2 ≠ 0 := by
  have h0' : ¬((r, c).1 = 0) := h0
  have hc' : ¬((r, c).2 = 0) := hc
  by_cases hh : c ∈ halfCols
  · have hh' : (r, c).2 ∈ halfCols := hh
    have hc2 : c = 3 ∨ c = 6 ∨ c = 9 ∨ c = 12 := by
      simpa [halfCols] using hh
    unfold anchor
    rw [if_neg h0', if_neg hc', if_pos hh']
    cases hws : ws (dayOfIdx (((r, c).1 - 1) / 4)) (slotOfHalfCol (r, c).2) with
    | none =>
        dsimp only
        refine ⟨rfl, ?_⟩
        rcases hc2 with rfl | rfl | rfl | rfl <;> simp
    | some e =>
        dsimp only
        by_cases he : e.isHalfSlot = true
        · rw [if_pos he]
          exact ⟨rfl, hc⟩
        · rw [if_neg he]
          refine ⟨rfl, ?_⟩
          rcases hc2 with rfl | rfl | rfl | rfl <;> simp
  · have hh' : ¬((r, c).2 ∈ halfCols) := hh
    unfold anchor
    rw [if_neg h0', if_neg hc', if_neg hh']
    exact ⟨rfl, hc⟩

/-- Only header-row positions anchor in the header row. -/
theorem anchor_fst_zero_imp (ws : WeeklySchedule) (r c : Nat)
    (h : (anchor ws (r, c)).1 = 0) : r = 0 := by
  by_cases h0 : r = 0
  · exact h0
  · exfalso
    by_cases hc : c = 0
    · subst hc
      rw [anchor_daycol ws r h0] at h
      simp at h
    · rw [(anchor_other ws r c h0 hc).1] at h
      exact h0 h

/-- Only row-20 positions (outside the day column) anchor at row 20. -/
theorem anchor_fst_twenty_imp (ws : WeeklySchedule) (r c : Nat)
    (h : (anchor ws (r, c)).1 = 20) (hsnd : (anchor ws (r, c)).2 ≠ 0) :
    r = 20 := by
  by_cases h0 : r = 0
  · subst h0
    rw [anchor_header_fst ws c] at h
    cases h
  · by_cases hc : c = 0
    · subst hc
      rw [anchor_daycol ws r h0] at hsnd
      simp at hsnd
    · rw [(anchor_other ws r c h0 hc).1] at h
      exact h

end Sched

namespace Sched

/-- Every in-range grid position is traversed. -/
theorem mem_allPositions {r c : Nat} (hr : r < 21) (hc : c < 13) :
    (r, c) ∈ allPositions := by
  unfold allPositions
  exact List.mem_flatMap.mpr
    ⟨r, List.mem_range.mpr hr, List.mem_map.mpr ⟨c, List.mem_range.mpr hc, rfl⟩⟩

/-- After the day-cell border pass, every cell either has no spec yet or
the all-thick one. -/
theorem afterDayBorders_values (p : Nat × Nat) :
    afterDayBorders p = none ∨ afterDayBorders p = some allThickB := by
  have h := foldl_preserve
      (fun st : BState => ∀ q, st q = none ∨ st q = some allThickB)
      (fun st r => setSpec st (r, 0) allThickB)
      (by
        intro a r ha q
        unfold setSpec
        dsimp only
        by_cases hq : q = (r, 0)
        · rw [if_pos hq]; right; rfl
        · rw [if_neg hq]; exact ha q)
      dayStartRows emptyBState
      (fun _ => Or.inl rfl)
  unfold afterDayBorders
  exact h p

/-- The last day's merged day-label cell carries the all-thick spec. -/
theorem afterDayBorders_at17 : afterDayBorders (17, 0) = some allThickB := rfl

/-- The state invariant carried through the formatting and outline passes:
every spec present has thick vertical borders, header-row cells have a
thick top, row-20 non-day-column cells have a thick bottom, and the last
day's merged day-label cell keeps a spec with a thick bottom. -/
def BInv (st : BState) : Prop :=
  (∀ q b, st q = some b →
    (b.left = thickW ∧ b.right = thickW)
    ∧ (q.1 = 0 → b.top = thickW)
    ∧ (q.1 = 20 → q.2 ≠ 0 → b.bottom = thickW))
  ∧ (∃ b, st (17, 0) = some b ∧ b.bottom = thickW)

theorem binv_afterDayBorders : BInv afterDayBorders := by
  constructor
  · intro q b h
    rcases afterDayBorders_values q with h2 | h2
    · rw [h2] at h; cases h
    · rw [h2] at h
      have hb : b = allThickB := (Option.some.inj h).symm
      subst hb
      exact ⟨⟨rfl, rfl⟩, fun _ => rfl, fun _ _ => rfl⟩
  · exact ⟨allThickB, afterDayBorders_at17, rfl⟩

theorem fmtSpec_sides (r c : Nat) :
    (fmtSpec r c).left = thickW ∧ (fmtSpec r c).right = thickW := ⟨rfl, rfl⟩

theorem fmtSpec_top0 (c : Nat) : (fmtSpec 0 c).top = thickW := rfl

theorem fmtSpec_bottom20 (c : Nat) : (fmtSpec 20 c).bottom = thickW := rfl

/-- One formatting append preserves the invariant. -/
theorem binv_append (ws : WeeklySchedule) (st : BState) (q0 : Nat × Nat)
    (h : BInv st) :
    BInv (appendSpec st (anchor ws q0) (fmtSpec q0.1 q0.2)) := by
  obtain ⟨hval, b17, h17, h17b⟩ := h
  constructor
  · intro q b hq
    unfold appendSpec at hq
    cases hv : st (anchor ws q0) with
    | some _ => rw [hv] at hq; dsimp only at hq; exact hval q b hq
    | none =>
        rw [hv] at hq
        unfold setSpec at hq
        dsimp only at hq
        by_cases he : q = anchor ws q0
        · rw [if_pos he] at hq
          have hb : b = fmtSpec q0.1 q0.2 := (Option.some.inj hq).symm
          subst hb
          subst he
          refine ⟨fmtSpec_sides _ _, ?_, ?_⟩
          · intro htop
            have h00 : q0.1 = 0 := anchor_fst_zero_imp ws q0.1 q0.2 htop
            rw [h00]
            exact fmtSpec_top0 _
          · intro h20 hsnd
            have h20' : q0.1 = 20 := anchor_fst_twenty_imp ws q0.1 q0.2 h20 hsnd
            rw [h20']
            exact fmtSpec_bottom20 _
        · rw [if_neg he] at hq; exact hval q b hq
  · refine ⟨b17, ?_, h17b⟩
    unfold appendSpec
    cases hv : st (anchor ws q0) with
    | some _ => dsimp only; exact h17
    | none =>
        dsimp only
        unfold setSpec
        by_cases he : ((17, 0) : Nat × Nat) = anchor ws q0
        · rw [← he] at hv
          rw [hv] at h17
          cases h17
        · rw [if_neg he]; exact h17

/-- One outline edit preserves the invariant. -/
theorem binv_modify (st : BState) (p q0 : Nat × Nat) (h : BInv st) :
    BInv (modifySpec st p (outlineEdit q0)) := by
  obtain ⟨hval, b17, h17, h17b⟩ := h
  constructor
  · intro q b hq
    unfold modifySpec at hq
    by_cases he : q = p
    · rw [if_pos he] at hq
      cases hv : st q with
      | none => rw [hv] at hq; cases hq
      | some b0 =>
          rw [hv] at hq
          have hb : b = outlineEdit q0 b0 := (Option.some.inj hq).symm
          subst hb
          obtain ⟨⟨hl, hr⟩, ht, hbm⟩ := hval q b0 hv
          refine ⟨⟨?_, ?_⟩, ?_, ?_⟩
          · unfold outlineEdit
            by_cases h2 : q0.2 = 0 <;> simp [h2, hl]
          · unfold outlineEdit
            by_cases h2 : q0.2 = 12 <;> simp [h2, hr]
          · intro h0
            unfold outlineEdit
            by_cases h2 : q0.1 = 0 <;> simp [h2, ht h0]
          · intro h20 hsnd
            unfold outlineEdit
            by_cases h2 : q0.1 = 20 <;> simp [h2, hbm h20 hsnd]
    · rw [if_neg he] at hq; exact hval q b hq
  · unfold modifySpec
    by_cases he : ((17, 0) : Nat × Nat) = p
    · refine ⟨outlineEdit q0 b17, ?_, ?_⟩
      · rw [if_pos he, h17]
        rfl
      · unfold outlineEdit
        by_cases h2 : q0.1 = 20 <;> simp [h2, h17b]
    · refine ⟨b17, ?_, h17b⟩
      rw [if_neg he]
      exact h17

theorem binv_afterFormatting (ws : WeeklySchedule) :
    BInv (afterFormatting ws) := by
  unfold afterFormatting
  exact foldl_preserve BInv _
    (fun st q hst => binv_append ws st q hst)
    allPositions afterDayBorders binv_afterDayBorders

theorem binv_final (ws : WeeklySchedule) : BInv (finalBorders ws) := by
  unfold finalBorders
  refine foldl_preserve BInv _ ?_ allPositions _ (binv_afterFormatting ws)
  intro st q hst
  by_cases hp : isPerimeter q = true
  · rw [if_pos hp]
    exact binv_modify st (anchor ws q) q hst
  · rw [if_neg hp]
    exact hst

/-- After the formatting pass, every traversed position's anchor carries a
spec. -/
theorem appendFold_some (ws : WeeklySchedule) :
    ∀ (L : List (Nat × Nat)) (st : BState) (q : Nat × Nat), q ∈ L →
      ((L.foldl (fun st q => appendSpec st (anchor ws q) (fmtSpec q.1 q.2)) st)
        (anchor ws q)).isSome := by
  intro L
  induction L with
  | nil => intro st q h; cases h
  | cons x xs ih =>
      intro st q h
      rw [List.foldl_cons]
      rcases List.mem_cons.mp h with rfl | h2
      · refine foldl_preserve
          (fun st : BState => (st (anchor ws q)).isSome) _ ?_ xs _ ?_
        · intro a p ha
          unfold appendSpec
          cases hv : a (anchor ws p) with
          | some _ => dsimp only; exact ha
          | none =>
              dsimp only
              unfold setSpec
              by_cases he : anchor ws q = anchor ws p
              · simp [he]
              · simp only [if_neg he]
                exact ha
        · unfold appendSpec
          cases hv : st (anchor ws q) with
          | some b => simp [hv]
          | none => simp [hv, setSpec]
      · exact ih _ q h2

/-- The outline pass keeps every spec present. -/
theorem some_final (ws : WeeklySchedule) (q : Nat × Nat)
    (hq : q ∈ allPositions) :
    ((finalBorders ws) (anchor ws q)).isSome := by
  unfold finalBorders
  refine foldl_preserve
      (fun st : BState => (st (anchor ws q)).isSome) _ ?_ allPositions _ ?_
    
  · intro a p ha
    by_cases hp : isPerimeter p = true
    · rw [if_pos hp]
      unfold modifySpec
      by_cases he : anchor ws q = anchor ws p
      · obtain ⟨b, hb⟩ := Option.isSome_iff_exists.mp ha
        rw [← he]
        simp [hb]
      · simp only [if_neg he]
        exact ha
    · rw [if_neg hp]
      exact ha
  · exact appendFold_some ws allPositions afterDayBorders q hq

end Sched

/-- C6: in the final border state of the 21×13 full-week table, all four
outer edges are thick for 100% of perimeter cells, regardless of internal
merges: every cell of the first row (its merged anchor) has a thick top
edge, every cell of the last row a thick bottom edge — including the merged
day-label cell anchored at (17,0) — every first-column cell a thick left
edge and every last-column cell a thick right edge; this holds for every
weekly schedule. -/
theorem C6_border_perimeter (ws : Sched.WeeklySchedule) (r c : Nat)
    (hr : r < 21) (hc : c < 13) :
    ∃ b, Sched.finalBorders ws (Sched.anchor ws (r, c)) = some b
      ∧ (r = 0 → b.top = Sched.thickW)
      ∧ (r = 20 → b.bottom = Sched.thickW)
      ∧ (c = 0 → b.left = Sched.thickW)
      ∧ (c = 12 → b.right = Sched.thickW) := by
  have hmem := Sched.mem_allPositions hr hc
  have hsome := Sched.some_final ws (r, c) hmem
  obtain ⟨b, hb⟩ := Option.isSome_iff_exists.mp hsome
  obtain ⟨hval, b17, h17, h17b⟩ := Sched.binv_final ws
  have hprops := hval _ b hb
  refine ⟨b, hb, ?_, ?_, fun _ => hprops.1.1, fun _ => hprops.1.2⟩
  · intro h0
    subst h0
    exact hprops.2.1 (Sched.anchor_header_fst ws c)
  · intro h20
    subst h20
    by_cases hc0 : c = 0
    · subst hc0
      have ha : Sched.anchor ws (20, 0) = (17, 0) := by
        rw [Sched.anchor_daycol ws 20 (by decide)]
      rw [ha] at hb
      rw [h17] at hb
      have hbe : b17 = b := Option.some.inj hb
      rw [← hbe]
      exact h17b
    · have h2 := Sched.anchor_other ws 20 c (by decide) hc0
      exact hprops.2.2 h2.1 h2.2

/-- Witness for C6 at the empty schedule and the bottom-right perimeter
position (20, 12). -/
theorem C6_border_perimeter_witness :
    ∃ b, Sched.finalBorders Sched.emptyWeekly
        (Sched.anchor Sched.emptyWeekly (20, 12)) = some b
      ∧ (20 = 0 → b.top = Sched.thickW)
      ∧ (20 = 20 → b.bottom = Sched.thickW)
      ∧ (12 = 0 → b.left = Sched.thickW)
      ∧ (12 = 12 → b.right = Sched.thickW) :=
  C6_border_perimeter Sched.emptyWeekly 20 12 (by decide) (by decide)
